import Mathlib

/-!
Verification of the blocklist downloader core: a shallow embedding of
`src/main.rs` (host validation, the per-line blocklist parser, the
fetch/cache/merge orchestration and the output renderer), together with
theorems settling the specification claims.
-/

set_option maxHeartbeats 1000000

namespace Blocklist

/-- Rust `char::is_whitespace`: the Unicode `White_Space` property,
written out over code points.  This is also the class matched by the
`regex` crate's `\s`. -/
def isWhitespaceChar (c : Char) : Bool :=
  let n := c.toNat
  n == 0x9 || n == 0xA || n == 0xB || n == 0xC || n == 0xD || n == 0x20 ||
  n == 0x85 || n == 0xA0 || n == 0x1680 || (0x2000 ≤ n && n ≤ 0x200A) ||
  n == 0x2028 || n == 0x2029 || n == 0x202F || n == 0x205F || n == 0x3000

/-- The radix-free part of Rust `char::to_digit`: digits `0-9` and
letters (case insensitive) valued `10..35`. -/
def digitVal (c : Char) : Option Nat :=
  let n := c.toNat
  if 0x30 ≤ n && n ≤ 0x39 then some (n - 0x30)
  else if 0x61 ≤ n && n ≤ 0x7A then some (n - 0x61 + 10)
  else if 0x41 ≤ n && n ≤ 0x5A then some (n - 0x41 + 10)
  else none

/-- Rust `char::to_digit(radix)`: a digit's value, accepted only when it
is below the radix. -/
def toDigit (radix : Nat) (c : Char) : Option Nat :=
  match digitVal c with
  | some v => if v < radix then some v else none
  | none => none

/-- Characters that can appear in a string accepted by the std IP
address parser: hex digits, `.` and `:`. -/
def isIpChar (c : Char) : Bool :=
  (toDigit 16 c).isSome || c == '.' || c == ':'

/-! ### The `std::net` address parser

`main.rs` calls `str::parse::<IpAddr>()`.  The following definitions
embed the std `Parser` used by `IpAddr::from_str`, as functions from a
list of characters to an optional value paired with the unconsumed
suffix. -/

/-- `Parser::read_given_char`: consume exactly the expected character. -/
def readGivenChar (c : Char) : List Char → Option (List Char)
  | d :: rest => if d = c then some rest else none
  | [] => none

/-- The digit-reading loop of `Parser::read_number`: consume digits in
the given radix, failing on overflow past `maxVal` (the checked `u8` /
`u16` arithmetic) or on more than `maxDigits` digits.  Returns the
value, the digit count and the rest of the input. -/
def readDigitsLoop (radix maxVal maxDigits : Nat) :
    List Char → Nat → Nat → Option (Nat × Nat × List Char)
  | [], acc, count => some (acc, count, [])
  | c :: cs, acc, count =>
    match toDigit radix c with
    | none => some (acc, count, c :: cs)
    | some d =>
      if maxVal < acc * radix + d then none
      else if maxDigits < count + 1 then none
      else readDigitsLoop radix maxVal maxDigits cs (acc * radix + d) (count + 1)

/-- `Parser::read_number(radix, max_digits, allow_zero_prefix)`:
at least one digit, bounded value and digit count, and a leading zero is
rejected in multi-digit numbers unless `allowZeroPfx`. -/
def read_number (radix maxVal maxDigits : Nat) (allowZeroPfx : Bool)
    (cs : List Char) : Option (Nat × List Char) :=
  match readDigitsLoop radix maxVal maxDigits cs 0 0 with
  | none => none
  | some (v, count, rest) =>
    if count == 0 then none
    else if !allowZeroPfx && (match cs with | c :: _ => c == '0' | [] => false)
        && 1 < count then none
    else some (v, rest)

/-- `Parser::read_ipv4_addr`: four `.`-separated decimal octets, each at
most three digits, no leading zeros, value at most 255. -/
def read_ipv4 (cs : List Char) : Option ((Nat × Nat × Nat × Nat) × List Char) := do
  let (a, r1) ← read_number 10 255 3 false cs
  let r2 ← readGivenChar '.' r1
  let (b, r3) ← read_number 10 255 3 false r2
  let r4 ← readGivenChar '.' r3
  let (c, r5) ← read_number 10 255 3 false r4
  let r6 ← readGivenChar '.' r5
  let (d, r7) ← read_number 10 255 3 false r6
  pure ((a, b, c, d), r7)

/-- `Parser::read_separator(':', i, read_number)`: group `i > 0` must be
preceded by a `:`.  A group is a 16-bit hex number of at most four
digits, leading zeros allowed. -/
def read_sep_group (i : Nat) (cs : List Char) : Option (Nat × List Char) :=
  if i = 0 then read_number 16 65535 4 true cs
  else do
    let r ← readGivenChar ':' cs
    read_number 16 65535 4 true r

/-- `Parser::read_separator(':', i, read_ipv4_addr)`: a trailing
embedded IPv4 address, again `:`-separated when `i > 0`. -/
def read_sep_ipv4 (i : Nat) (cs : List Char) :
    Option ((Nat × Nat × Nat × Nat) × List Char) :=
  if i = 0 then read_ipv4 cs
  else do
    let r ← readGivenChar ':' cs
    read_ipv4 r

/-- The `read_groups` loop of `Parser::read_ipv6_addr`.  `i` is the
index of the next group, `rem` the number of slots still free.  An
embedded IPv4 address is tried whenever at least two slots remain; it
fills two slots and ends the loop.  Returns the groups read, whether an
embedded IPv4 address was read, and the unconsumed input. -/
def readGroupsAux : Nat → Nat → List Char → List Nat → (List Nat × Bool × List Char)
  | _, 0, cs, acc => (acc.reverse, false, cs)
  | i, rem + 1, cs, acc =>
    match (if 1 ≤ rem then read_sep_ipv4 i cs else none) with
    | some ((a, b, c, d), rest) =>
      (acc.reverse ++ [a * 256 + b, c * 256 + d], true, rest)
    | none =>
      match read_sep_group i cs with
      | some (g, rest) => readGroupsAux (i + 1) rem rest (g :: acc)
      | none => (acc.reverse, false, cs)

/-- `Parser::read_ipv6_addr`: up to eight head groups; a full head is an
address; otherwise an embedded IPv4 address may not sit before `::`, a
literal `::` follows, and the tail fills at most `8 - (head + 1)`
groups, the gap being zero groups. -/
def read_ipv6 (cs : List Char) : Option (List Nat × List Char) :=
  match readGroupsAux 0 8 cs [] with
  | (head, headIpv4, rest) =>
    if head.length = 8 then some (head, rest)
    else if headIpv4 then none
    else
      match rest with
      | ':' :: ':' :: rest2 =>
        match readGroupsAux 0 (8 - (head.length + 1)) rest2 [] with
        | (tail, _, rest3) =>
          some (head ++ List.replicate (8 - head.length - tail.length) 0 ++ tail, rest3)
      | _ => none

/-- `Ipv4Addr`: four octets. -/
structure Ipv4Addr where
  a : Nat
  b : Nat
  c : Nat
  d : Nat
deriving DecidableEq, Repr

/-- `std::net::IpAddr`: a V4 address or a V6 address of eight 16-bit
groups. -/
inductive IpAddr
  | v4 : Ipv4Addr → IpAddr
  | v6 : List Nat → IpAddr
deriving DecidableEq, Repr

/-- `IpAddr::is_unspecified`: `0.0.0.0` or `::`. -/
def IpAddr.is_unspecified : IpAddr → Bool
  | .v4 q => q.a == 0 && q.b == 0 && q.c == 0 && q.d == 0
  | .v6 g => g.all (· == 0)

/-- `IpAddr::is_loopback`: `127.0.0.0/8` or `::1`. -/
def IpAddr.is_loopback : IpAddr → Bool
  | .v4 q => q.a == 127
  | .v6 g => g == [0, 0, 0, 0, 0, 0, 0, 1]

/-- `IpAddr::from_str`: try IPv4 first, then IPv6, and require the
whole string to be consumed.  A parse failure is Rust's
`AddrParseError`, carried here as `none`. -/
def parse_ip_addr (s : String) : Option IpAddr :=
  match read_ipv4 s.data with
  | some ((a, b, c, d), rest) =>
    if rest.isEmpty then some (.v4 ⟨a, b, c, d⟩) else none
  | none =>
    match read_ipv6 s.data with
    | some (g, rest) => if rest.isEmpty then some (.v6 g) else none
    | none => none

/-! ### Host -/

/-- `struct Host(String)`: equality and order are those of the wrapped
string. -/
structure Host where
  val : String
deriving DecidableEq, Repr

/-- The error values produced by the pipeline (`eyre` error messages in
the source, carried here by kind and payload). -/
inductive BlErr
  | malformedIp
  | suspiciousIp (ip : IpAddr)
  | failedParsing (line : String)
  | invalidHost (value : String)
deriving DecidableEq, Repr

deriving instance DecidableEq for Except

/-- `Host::try_from`: reject the empty string and any string containing
whitespace, `/` or `"`; otherwise wrap the string unchanged. -/
def Host.try_from (value : String) : Except BlErr Host :=
  if value.data.isEmpty
      || value.data.any (fun c => isWhitespaceChar c || c == '/' || c == '"') then
    .error (.invalidHost value)
  else
    .ok ⟨value⟩

/-! ### The line parser -/

/-- Split on `'\n'` like `String::split('\n')`: always at least one
piece, one extra piece per newline. -/
def splitNl : List Char → List (List Char)
  | [] => [[]]
  | c :: cs =>
    if c = '\n' then [] :: splitNl cs
    else
      match splitNl cs with
      | h :: t => (c :: h) :: t
      | [] => [[c]]

/-- Drop one trailing `'\r'`, as each `\n`-terminated piece of
`str::lines` does. -/
def stripCRend (l : List Char) : List Char :=
  if l.getLast? = some '\r' then l.dropLast else l

/-- Assemble the pieces of `splitNl` into the lines of `str::lines`:
every piece but the last was `\n`-terminated and loses a trailing
`'\r'`; the last piece is dropped when empty (trailing newline or empty
input) and otherwise kept as is. -/
def assembleLines : List (List Char) → List String
  | [] => []
  | [last] => if last.isEmpty then [] else [⟨last⟩]
  | p :: ps => ⟨stripCRend p⟩ :: assembleLines ps

/-- `str::lines`. -/
def rustLines (s : String) : List String :=
  assembleLines (splitNl s.data)

/-- `COMMENT_REGEX.replace(line, "")` for `COMMENT_REGEX = "#.*"`:
everything from the first `#` on is removed. -/
def stripComment (l : String) : String :=
  ⟨l.data.takeWhile (fun c => c != '#')⟩

/-- The filter `!line.is_empty() && !line.chars().all(is_whitespace)`. -/
def keepLine (l : String) : Bool :=
  !l.data.isEmpty && !l.data.all isWhitespaceChar

/-- Maximal runs of non-whitespace characters; `acc` is the current run,
reversed. -/
def tokensAux : List Char → List Char → List String
  | [], acc => if acc.isEmpty then [] else [⟨acc.reverse⟩]
  | c :: cs, acc =>
    if isWhitespaceChar c then
      if acc.isEmpty then tokensAux cs [] else ⟨acc.reverse⟩ :: tokensAux cs []
    else tokensAux cs (c :: acc)

/-- The whitespace-separated tokens of a line. -/
def tokens (l : String) : List String := tokensAux l.data []

/-- The captures of `HOST_REGEX`, i.e.
`^\s*((?P<ip>\S+)\s+)?(?P<host>\S+)\s*$`: the regex matches exactly the
lines with one or two whitespace-separated tokens, the `ip` group being
the first of two tokens and the `host` group the last token. -/
def hostRegexCaptures (l : String) : Option (Option String × String) :=
  match tokens l with
  | [h] => some (none, h)
  | [ip, h] => some (some ip, h)
  | _ => none

/-- The per-line body of `parse_blocklist`: match the line against
`HOST_REGEX`; on a leading IP token, accept on an unspecified address,
skip silently on a loopback address, and report malformed or suspicious
addresses; validate the host token. -/
def parseLine (line : String) : Option (Except BlErr Host) :=
  match hostRegexCaptures line with
  | some (ipTok, hostTok) =>
    match ipTok.map parse_ip_addr with
    | some (some ip) =>
      if ip.is_unspecified then some (Host.try_from hostTok)
      else if ip.is_loopback then none
      else some (.error (.suspiciousIp ip))
    | some none => some (.error .malformedIp)
    | none => some (Host.try_from hostTok)
  | none => some (.error (.failedParsing line))

/-- `parse_blocklist`: split into lines, strip comments, drop empty and
all-whitespace lines, and parse each remaining line. -/
def parse_blocklist (blocklist : String) : List (Except BlErr Host) :=
  (((rustLines blocklist).map stripComment).filter keepLine).filterMap parseLine

/-! ### The output renderer -/

/-- The output format selected by `--format`. -/
inductive BlocklistOutput
  | unbound
  | dnsmasq
  | hosts
deriving DecidableEq, Repr

/-- `BlocklistOutput::write_to`: iterate the merged set in ascending
order and append one line per host in the selected grammar. -/
def BlocklistOutput.write_to (fmt : BlocklistOutput) (merged : Finset String) : String :=
  match fmt with
  | .unbound =>
    (merged.sort (· ≤ ·)).foldl
      (fun acc host => acc ++ "local-zone: \"" ++ host ++ "\" always_nxdomain\n") ""
  | .dnsmasq =>
    (merged.sort (· ≤ ·)).foldl
      (fun acc host => acc ++ "address=/" ++ host ++ "/\n") ""
  | .hosts =>
    (merged.sort (· ≤ ·)).foldl
      (fun acc host => acc ++ "0.0.0.0 " ++ host ++ "\n") ""

/-! ### The merge engine -/

/-- The log lines emitted during a run, by kind. -/
inductive LogMsg
  | fetchFailed (url : String)
  | cacheWriteFailed (url : String)
  | usingCached
  | parseError (url : String) (e : BlErr)
deriving DecidableEq, Repr

/-- The mutable state of `main`'s source loop: the merged set (seeded
with the blacklist), the run-failed flag and the log. -/
structure RunState where
  merged : Finset String
  failed : Bool
  log : List LogMsg
deriving DecidableEq

/-- The external world of one run: the outcome of each fetch, the
outcome of each cache read (`none` is a filesystem error, `some none` a
cache miss, `some (some t)` a hit), and whether each cache write
succeeds. -/
structure Env where
  fetch : String → Option String
  cacheGet : String → Option (Option String)
  cacheInsertOk : String → Bool

/-- The already-deserialized configuration, hosts as raw strings. -/
structure Config where
  host_whitelist : Finset String
  host_blacklist : Finset String
  blocklists : List String

/-- The inner loop over `parse_blocklist(&hosts)`: insert each parsed
host not in the whitelist, log each parse error and set the failed
flag. -/
def process_lines (url : String) (wl : Finset String)
    (rs : List (Except BlErr Host)) (st : RunState) : RunState :=
  rs.foldl
    (fun st r =>
      match r with
      | .ok h => if h.val ∈ wl then st else { st with merged := insert h.val st.merged }
      | .error e => { st with failed := true, log := st.log ++ [.parseError url e] })
    st

/-- One iteration of the source loop: on a successful fetch, a failed
cache write is only logged; on a fetch failure the run is marked failed
and a cached copy is used when one exists, otherwise the source is
skipped. -/
def process_source (wl : Finset String) (env : Env) (st : RunState) (url : String) :
    RunState :=
  match env.fetch url with
  | some text =>
    let st := if env.cacheInsertOk url then st
              else { st with log := st.log ++ [.cacheWriteFailed url] }
    process_lines url wl (parse_blocklist text) st
  | none =>
    let st := { st with failed := true, log := st.log ++ [.fetchFailed url] }
    match env.cacheGet url with
    | some (some text) =>
      let st := { st with log := st.log ++ [.usingCached] }
      process_lines url wl (parse_blocklist text) st
    | _ => st

/-- The source loop of `main`: fold the sources over a state seeded with
the blacklist, an unset failed flag and an empty log. -/
def runMain (cfg : Config) (env : Env) : RunState :=
  cfg.blocklists.foldl (process_source cfg.host_whitelist env)
    ⟨cfg.host_blacklist, false, []⟩

/-- What `main` delivers: the rendered output and the exit status. -/
structure MainResult where
  output : String
  exitFailure : Bool
deriving DecidableEq

/-- The tail of `main`: render the merged set (this happens
unconditionally, before the failed flag is consulted), then report
failure exactly when the flag is set. -/
def main_run (cfg : Config) (env : Env) (fmt : BlocklistOutput) : MainResult :=
  let st := runMain cfg env
  { output := fmt.write_to st.merged, exitFailure := st.failed }

/-! ### The cache path -/

/-- `Cache::cache_path`: join the cache directory with the URL string,
every `/` replaced by `_`. -/
def cache_path (cacheDir url : String) : String :=
  cacheDir ++ "/" ++ ⟨url.data.map (fun c => if c = '/' then '_' else c)⟩

/-- The slash-to-underscore encoding of a URL string on its own. -/
def replaceSlash (url : String) : String :=
  ⟨url.data.map (fun c => if c = '/' then '_' else c)⟩

/-! ### Specification-side definitions

These follow the spec's wording and are compared with the embedded
program by the claim theorems. -/

/-- `true` exactly on parse errors. -/
def isErr : Except BlErr Host → Bool
  | .error _ => true
  | .ok _ => false

/-- The successfully parsed host strings of a result list, in order. -/
def okHosts (rs : List (Except BlErr Host)) : List String :=
  rs.filterMap (fun r => match r with | .ok h => some h.val | .error _ => none)

/-- The set of successfully parsed host strings. -/
def okHostsSet (rs : List (Except BlErr Host)) : Finset String :=
  (okHosts rs).toFinset

/-- The text a source contributes: the fetched text, or the cached text
on a fetch failure with a cache hit, or nothing. -/
def sourceText (env : Env) (url : String) : Option String :=
  match env.fetch url with
  | some t => some t
  | none =>
    match env.cacheGet url with
    | some (some t) => some t
    | _ => none

/-- Spec formula: the hosts a source adds — its successfully parsed
hosts minus the whitelist — or nothing when it contributes no text. -/
def sourceContribution (wl : Finset String) (env : Env) (url : String) : Finset String :=
  match sourceText env url with
  | some t => okHostsSet (parse_blocklist t) \ wl
  | none => ∅

/-- Spec formula: the union over all sources of their contributions. -/
def contributedUnion (cfg : Config) (env : Env) : Finset String :=
  cfg.blocklists.foldr
    (fun url acc => sourceContribution cfg.host_whitelist env url ∪ acc) ∅

/-- Whether processing a source leaves the run failed: a fetch failure
always does, a fetched text does exactly when a line fails to parse. -/
def source_failed (env : Env) (url : String) : Bool :=
  match env.fetch url with
  | some t => (parse_blocklist t).any isErr
  | none => true

/-- Spec formula: some line of the text this source contributed failed
to parse. -/
def hasParseErrors (env : Env) (url : String) : Bool :=
  match sourceText env url with
  | some t => (parse_blocklist t).any isErr
  | none => false

/-- Spec formula for the render table (section 4.6 of the spec). -/
def renderLineSpec : BlocklistOutput → String → String
  | .unbound, host => "local-zone: \"" ++ host ++ "\" always_nxdomain"
  | .dnsmasq, host => "address=/" ++ host ++ "/"
  | .hosts, host => "0.0.0.0 " ++ host

/-- A raw string satisfying the `Host` invariant: non-empty, no
whitespace, no `/`, no `"`. -/
def validHostString (s : String) : Bool :=
  !s.data.isEmpty && !s.data.any (fun c => isWhitespaceChar c || c == '/' || c == '"')

/-! ### Basic string lemmas -/

lemma string_data_inj {a b : String} (h : a.data = b.data) : a = b := by
  cases a; cases b; exact congrArg String.mk h

lemma data_append (a b : String) : (a ++ b).data = a.data ++ b.data := by
  cases a; cases b; rfl

lemma string_eta (a : String) : (⟨a.data⟩ : String) = a := by
  cases a; rfl

/-! ### Lines -/

lemma splitNl_no_nl : ∀ (xs : List Char), '\n' ∉ xs → splitNl xs = [xs] := by
  intro xs
  induction xs with
  | nil => intro _; rfl
  | cons c cs ih =>
    intro h
    have hc : ¬c = '\n' := by
      intro hEq; exact h (hEq ▸ List.mem_cons_self c cs)
    have hcs : '\n' ∉ cs := fun hm => h (List.mem_cons_of_mem c hm)
    simp [splitNl, hc, ih hcs]

lemma rustLines_single (l : String) (hnl : '\n' ∉ l.data) (hne : l.data ≠ []) :
    rustLines l = [l] := by
  unfold rustLines
  rw [splitNl_no_nl l.data hnl]
  simp [assembleLines, List.isEmpty_iff, hne, string_eta]

/-! ### Claim C4: host validation -/

/-- C4: for every string `s`, `Host` validation succeeds exactly when
`s` is non-empty and contains no whitespace character, no `/` and no
`"`; and a successful validation wraps `s` unchanged. -/
theorem host_validate_iff (s : String) :
    ((∃ h : Host, Host.try_from s = .ok h) ↔
      (s.data ≠ [] ∧ ∀ c ∈ s.data, isWhitespaceChar c = false ∧ c ≠ '/' ∧ c ≠ '"'))
    ∧ (∀ h : Host, Host.try_from s = .ok h → h = ⟨s⟩) := by
  have hcond : ((s.data.isEmpty
        || s.data.any (fun c => isWhitespaceChar c || c == '/' || c == '"')) = false)
      ↔ (s.data ≠ [] ∧ ∀ c ∈ s.data, isWhitespaceChar c = false ∧ c ≠ '/' ∧ c ≠ '"') := by
    rw [Bool.or_eq_false_iff]
    constructor
    · rintro ⟨h1, h2⟩
      refine ⟨by simpa [List.isEmpty_iff] using h1, ?_⟩
      intro c hc
      have h3 : (isWhitespaceChar c || c == '/' || c == '"') = false := by
        simpa using List.any_eq_false.mp h2 c hc
      simp only [Bool.or_eq_false_iff, beq_eq_false_iff_ne] at h3
      exact ⟨h3.1.1, h3.1.2, h3.2⟩
    · rintro ⟨h1, h2⟩
      refine ⟨by simpa [List.isEmpty_iff] using h1, ?_⟩
      rw [List.any_eq_false]
      intro c hc
      rw [Bool.not_eq_true]
      simp only [Bool.or_eq_false_iff, beq_eq_false_iff_ne]
      exact ⟨⟨(h2 c hc).1, (h2 c hc).2.1⟩, (h2 c hc).2.2⟩
  constructor
  · constructor
    · rintro ⟨h, hh⟩
      by_cases hc : (s.data.isEmpty
          || s.data.any (fun c => isWhitespaceChar c || c == '/' || c == '"')) = true
      · simp [Host.try_from, hc] at hh
      · exact hcond.mp (by simpa using hc)
    · intro hr
      have hc := hcond.mpr hr
      exact ⟨⟨s⟩, by simp [Host.try_from, hc]⟩
  · intro h hh
    by_cases hc : (s.data.isEmpty
        || s.data.any (fun c => isWhitespaceChar c || c == '/' || c == '"')) = true
    · simp [Host.try_from, hc] at hh
    · have hc' : (s.data.isEmpty
          || s.data.any (fun c => isWhitespaceChar c || c == '/' || c == '"')) = false := by
        simpa using hc
      simp only [Host.try_from, hc', Bool.false_eq_true, if_false] at hh
      injection hh with hh2
      exact hh2.symm

/-- C4 witness: `"fish.com"` validates and round-trips. -/
theorem host_validate_iff_witness :
    (∃ h : Host, Host.try_from "fish.com" = .ok h)
    ∧ (∀ h : Host, Host.try_from "fish.com" = .ok h → h = ⟨"fish.com"⟩) :=
  ⟨(host_validate_iff "fish.com").1.mpr ⟨by decide, by decide⟩,
   (host_validate_iff "fish.com").2⟩

/-! ### Claim C8: comment-only and blank lines -/

/-- C8: a line that is only a comment and/or whitespace — i.e. one that
is empty or all-whitespace once everything from the first `#` on is
stripped — contributes no parse result at all; in particular a
`"# comment"` line and an all-whitespace line parse to nothing. -/
theorem comment_blank_lines_skipped :
    (∀ l : String, '\n' ∉ l.data →
      ((stripComment l).data.isEmpty || (stripComment l).data.all isWhitespaceChar) = true →
      parse_blocklist l = [])
    ∧ parse_blocklist "# comment" = []
    ∧ parse_blocklist "   " = [] := by
  refine ⟨?_, by decide, by decide⟩
  intro l hnl hblank
  by_cases hne : l.data = []
  · have : l = "" := string_data_inj hne
    subst this
    rfl
  · unfold parse_blocklist
    rw [rustLines_single l hnl hne]
    have hkeep : keepLine (stripComment l) = false := by
      unfold keepLine
      rcases (by simpa using hblank :
          (stripComment l).data.isEmpty = true ∨ (stripComment l).data.all isWhitespaceChar = true)
        with h | h
      · simp [h]
      · simp [h]
    simp [hkeep]

/-- C8 witness: a line with leading whitespace and a comment parses to
nothing. -/
theorem comment_blank_lines_skipped_witness :
    ('\n' ∉ "  # a comment".data
      ∧ ((stripComment "  # a comment").data.isEmpty
          || (stripComment "  # a comment").data.all isWhitespaceChar) = true)
    ∧ parse_blocklist "  # a comment" = [] :=
  ⟨⟨by decide, by decide⟩,
   comment_blank_lines_skipped.1 "  # a comment" (by decide) (by decide)⟩

/-! ### Claim C9: cache path derivation -/

/-- C9 counterexample: two distinct URL strings whose cache paths
coincide, so the derivation is not injective. -/
theorem cache_path_not_injective :
    cache_path "cache" "http://a/b" = cache_path "cache" "http://a_b"
    ∧ ("http://a/b" : String) ≠ "http://a_b" := by
  constructor
  · decide
  · decide

/-- C9 amended: the cache path is a deterministic function of the URL
string, and two URLs share a cache path exactly when their
slash-to-underscore encodings coincide (which distinct URLs can). -/
theorem cache_path_eq_iff (dir u1 u2 : String) :
    cache_path dir u1 = cache_path dir u2 ↔ replaceSlash u1 = replaceSlash u2 := by
  unfold cache_path replaceSlash
  constructor
  · intro h
    have hd := congrArg String.data h
    rw [data_append, data_append, data_append, data_append] at hd
    exact string_data_inj (List.append_cancel_left hd)
  · intro h
    rw [h]

/-! ### Claim C2 counterexample -/

/-- A configuration whose whitelist and blacklist share a host. -/
def overlapConfig : Config := ⟨{"dual.example"}, {"dual.example"}, []⟩

/-- An environment with no sources to consult. -/
def idleEnv : Env := ⟨fun _ => none, fun _ => some none, fun _ => true⟩

/-- C2 counterexample: a host present in `host_whitelist` is still in
the final merged set when it is also in `host_blacklist` — the
blacklist seed is never filtered by the whitelist. -/
theorem whitelisted_host_in_merged :
    "dual.example" ∈ overlapConfig.host_whitelist
    ∧ "dual.example" ∈ (runMain overlapConfig idleEnv).merged := by
  constructor
  · decide
  · decide

/-! ### Claim C3: the leading-IP rules -/

lemma loopback_not_unspecified (a : IpAddr) (h : a.is_loopback = true) :
    a.is_unspecified = false := by
  cases a with
  | v4 q =>
    cases q with
    | mk a b c d =>
      simp only [IpAddr.is_loopback, beq_iff_eq] at h
      subst h
      simp [IpAddr.is_unspecified]
  | v6 g =>
    simp only [IpAddr.is_loopback, beq_iff_eq] at h
    subst h
    decide

/-- C3: on a two-token line whose first token parses as an IP address,
the parser skips loopback addresses silently, keeps the hostname for
unspecified addresses, and reports every other address as suspicious;
a first token that fails to parse as an IP is a malformed-ip error, and
a one-token line is taken as a hostname; with the spec's four concrete
lines evaluated. -/
theorem parse_line_ip_rules (l ipTok hostTok : String) :
    (tokens l = [ipTok, hostTok] → ∀ a : IpAddr, parse_ip_addr ipTok = some a →
      ((a.is_loopback = true → parseLine l = none)
        ∧ (a.is_unspecified = true → parseLine l = some (Host.try_from hostTok))
        ∧ (a.is_loopback = false → a.is_unspecified = false →
            parseLine l = some (.error (.suspiciousIp a)))))
    ∧ (tokens l = [ipTok, hostTok] → parse_ip_addr ipTok = none →
        parseLine l = some (.error .malformedIp))
    ∧ (tokens l = [hostTok] → parseLine l = some (Host.try_from hostTok))
    ∧ parse_blocklist "127.0.0.1 tracker.example" = []
    ∧ parse_blocklist "0.0.0.0 tracker.example" = [.ok ⟨"tracker.example"⟩]
    ∧ parse_blocklist "10.0.0.1 tracker.example"
        = [.error (.suspiciousIp (.v4 ⟨10, 0, 0, 1⟩))]
    ∧ parse_blocklist "tracker.example" = [.ok ⟨"tracker.example"⟩] := by
  refine ⟨?_, ?_, ?_, by decide, by decide, by decide, by decide⟩
  · intro htok a hpa
    refine ⟨?_, ?_, ?_⟩
    · intro hlb
      have hus := loopback_not_unspecified a hlb
      simp [parseLine, hostRegexCaptures, htok, hpa, hus, hlb]
    · intro hus
      simp [parseLine, hostRegexCaptures, htok, hpa, hus]
    · intro hlb hus
      simp [parseLine, hostRegexCaptures, htok, hpa, hus, hlb]
  · intro htok hpa
    simp [parseLine, hostRegexCaptures, htok, hpa]
  · intro htok
    simp [parseLine, hostRegexCaptures, htok]

/-- C3 witness: the suspicious-ip rule fires on
`"10.0.0.1 tracker.example"`. -/
theorem parse_line_ip_rules_witness :
    (tokens "10.0.0.1 tracker.example" = ["10.0.0.1", "tracker.example"]
      ∧ parse_ip_addr "10.0.0.1" = some (.v4 ⟨10, 0, 0, 1⟩))
    ∧ parseLine "10.0.0.1 tracker.example"
        = some (.error (.suspiciousIp (.v4 ⟨10, 0, 0, 1⟩))) :=
  ⟨⟨by decide, by decide⟩,
   ((parse_line_ip_rules "10.0.0.1 tracker.example" "10.0.0.1" "tracker.example").1
      (by decide) (.v4 ⟨10, 0, 0, 1⟩) (by decide)).2.2 (by decide) (by decide)⟩

/-! ### The merge loop, characterized -/

lemma okHostsSet_cons_ok (h : Host) (rest : List (Except BlErr Host)) :
    okHostsSet (.ok h :: rest) = insert h.val (okHostsSet rest) := by
  simp [okHostsSet, okHosts]

lemma okHostsSet_cons_error (e : BlErr) (rest : List (Except BlErr Host)) :
    okHostsSet (.error e :: rest) = okHostsSet rest := by
  simp [okHostsSet, okHosts]

lemma union_sdiff_insert_mem (m s wl : Finset String) (a : String) (ha : a ∈ wl) :
    m ∪ (insert a s \ wl) = m ∪ (s \ wl) := by
  ext x
  simp only [Finset.mem_union, Finset.mem_sdiff, Finset.mem_insert]
  constructor
  · rintro (h | ⟨(rfl | h), hn⟩)
    · exact Or.inl h
    · exact absurd ha hn
    · exact Or.inr ⟨h, hn⟩
  · rintro (h | ⟨h, hn⟩)
    · exact Or.inl h
    · exact Or.inr ⟨Or.inr h, hn⟩

lemma union_sdiff_insert_not_mem (m s wl : Finset String) (a : String) (ha : a ∉ wl) :
    insert a m ∪ (s \ wl) = m ∪ (insert a s \ wl) := by
  ext x
  simp only [Finset.mem_union, Finset.mem_sdiff, Finset.mem_insert]
  constructor
  · rintro ((rfl | h) | ⟨h, hn⟩)
    · exact Or.inr ⟨Or.inl rfl, ha⟩
    · exact Or.inl h
    · exact Or.inr ⟨Or.inr h, hn⟩
  · rintro (h | ⟨(rfl | h), hn⟩)
    · exact Or.inl (Or.inr h)
    · exact Or.inl (Or.inl rfl)
    · exact Or.inr ⟨h, hn⟩

lemma process_lines_eq (url : String) (wl : Finset String) :
    ∀ (rs : List (Except BlErr Host)) (st : RunState),
    process_lines url wl rs st =
      ⟨st.merged ∪ (okHostsSet rs \ wl),
       st.failed || rs.any isErr,
       st.log ++ rs.filterMap (fun r => match r with
         | .error e => some (.parseError url e)
         | .ok _ => none)⟩ := by
  intro rs
  induction rs with
  | nil =>
    intro st
    simp [process_lines, okHostsSet, okHosts]
  | cons r rest ih =>
    intro st
    have hcons : process_lines url wl (r :: rest) st
        = process_lines url wl rest
            (match r with
              | .ok h => if h.val ∈ wl then st else { st with merged := insert h.val st.merged }
              | .error e => { st with failed := true, log := st.log ++ [.parseError url e] }) :=
      rfl
    rw [hcons, ih]
    cases r with
    | ok h =>
      by_cases hw : h.val ∈ wl
      · simp only [hw, if_true, okHostsSet_cons_ok, List.any_cons, isErr,
          List.filterMap_cons]
        rw [union_sdiff_insert_mem _ _ _ _ hw]
        simp
      · simp only [hw, if_false, okHostsSet_cons_ok, List.any_cons, isErr,
          List.filterMap_cons]
        rw [← union_sdiff_insert_not_mem _ _ _ _ hw]
        simp
    | error e =>
      simp only [okHostsSet_cons_error, List.any_cons, isErr, List.filterMap_cons]
      simp [List.append_assoc, Bool.or_assoc]

lemma process_source_merged (wl : Finset String) (env : Env) (st : RunState) (url : String) :
    (process_source wl env st url).merged = st.merged ∪ sourceContribution wl env url := by
  unfold process_source sourceContribution sourceText
  cases hf : env.fetch url with
  | some t =>
    by_cases hi : env.cacheInsertOk url <;> simp [hi, process_lines_eq, okHostsSet]
  | none =>
    cases hg : env.cacheGet url with
    | none => simp
    | some o =>
      cases o with
      | none => simp
      | some t => simp [process_lines_eq]

lemma process_source_failed (wl : Finset String) (env : Env) (st : RunState) (url : String) :
    (process_source wl env st url).failed = (st.failed || source_failed env url) := by
  unfold process_source source_failed
  cases hf : env.fetch url with
  | some t =>
    by_cases hi : env.cacheInsertOk url <;> simp [hi, process_lines_eq]
  | none =>
    cases hg : env.cacheGet url with
    | none => simp
    | some o =>
      cases o with
      | none => simp
      | some t => simp [process_lines_eq]

lemma process_source_log_mono (wl : Finset String) (env : Env) (st : RunState) (url : String) :
    ∃ t, (process_source wl env st url).log = st.log ++ t := by
  unfold process_source
  cases hf : env.fetch url with
  | some txt =>
    by_cases hi : env.cacheInsertOk url
    · exact ⟨(parse_blocklist txt).filterMap
        (fun r => match r with
          | .error e => some (.parseError url e)
          | .ok _ => none), by simp [hi, process_lines_eq]⟩
    · exact ⟨.cacheWriteFailed url :: (parse_blocklist txt).filterMap
        (fun r => match r with
          | .error e => some (.parseError url e)
          | .ok _ => none), by simp [hi, process_lines_eq]⟩
  | none =>
    cases hg : env.cacheGet url with
    | none => exact ⟨[.fetchFailed url], rfl⟩
    | some o =>
      cases o with
      | none => exact ⟨[.fetchFailed url], rfl⟩
      | some txt =>
        exact ⟨.fetchFailed url :: .usingCached :: (parse_blocklist txt).filterMap
          (fun r => match r with
            | .error e => some (.parseError url e)
            | .ok _ => none), by simp [process_lines_eq]⟩

lemma process_source_usingCached (wl : Finset String) (env : Env) (st : RunState)
    (url t : String) (hf : env.fetch url = none) (hc : env.cacheGet url = some (some t)) :
    LogMsg.usingCached ∈ (process_source wl env st url).log := by
  unfold process_source
  rw [hf, hc]
  simp [process_lines_eq]

lemma foldl_merged (wl : Finset String) (env : Env) :
    ∀ (urls : List String) (st : RunState),
    (urls.foldl (process_source wl env) st).merged
      = st.merged ∪ urls.foldr (fun u acc => sourceContribution wl env u ∪ acc) ∅ := by
  intro urls
  induction urls with
  | nil => intro st; simp
  | cons u us ih =>
    intro st
    rw [List.foldl_cons, ih, List.foldr_cons, process_source_merged, Finset.union_assoc]

lemma foldl_failed (wl : Finset String) (env : Env) :
    ∀ (urls : List String) (st : RunState),
    (urls.foldl (process_source wl env) st).failed
      = (st.failed || urls.any (source_failed env)) := by
  intro urls
  induction urls with
  | nil => intro st; simp
  | cons u us ih =>
    intro st
    rw [List.foldl_cons, ih, List.any_cons, process_source_failed, Bool.or_assoc]

lemma foldl_log_mono (wl : Finset String) (env : Env) :
    ∀ (urls : List String) (st : RunState),
    ∃ t, (urls.foldl (process_source wl env) st).log = st.log ++ t := by
  intro urls
  induction urls with
  | nil => intro st; exact ⟨[], by simp⟩
  | cons u us ih =>
    intro st
    obtain ⟨t1, h1⟩ := process_source_log_mono wl env st u
    obtain ⟨t2, h2⟩ := ih (process_source wl env st u)
    exact ⟨t1 ++ t2, by rw [List.foldl_cons, h2, h1, List.append_assoc]⟩

lemma foldl_log_mem (wl : Finset String) (env : Env) (urls : List String) (st : RunState)
    (x : LogMsg) (hx : x ∈ st.log) :
    x ∈ (urls.foldl (process_source wl env) st).log := by
  obtain ⟨t, ht⟩ := foldl_log_mono wl env urls st
  rw [ht]
  exact List.mem_append_left _ hx

lemma mem_foldr_contrib (wl : Finset String) (env : Env) (x : String) :
    ∀ (urls : List String),
    (x ∈ urls.foldr (fun u acc => sourceContribution wl env u ∪ acc) ∅
      ↔ ∃ u ∈ urls, x ∈ sourceContribution wl env u) := by
  intro urls
  induction urls with
  | nil => simp
  | cons u us ih => simp [ih]

/-! ### Claim C1: the merged set -/

/-- C1: the merged set equals the blacklist unioned, over each source
that contributed text, with that source's successfully parsed hosts
minus the whitelist. -/
theorem merged_set_eq_union (cfg : Config) (env : Env) :
    (runMain cfg env).merged = cfg.host_blacklist ∪ contributedUnion cfg env := by
  unfold runMain contributedUnion
  exact foldl_merged _ _ _ _

/-! ### Claim C2, amended -/

/-- C2 amended: a whitelisted host that is not itself in the blacklist
seed is absent from the final merged set, whatever the sources propose
and in whatever order. -/
theorem whitelisted_absent_unless_blacklisted (cfg : Config) (env : Env) (w : String)
    (hw : w ∈ cfg.host_whitelist) (hb : w ∉ cfg.host_blacklist) :
    w ∉ (runMain cfg env).merged := by
  intro hmem
  unfold runMain at hmem
  rw [foldl_merged] at hmem
  rcases Finset.mem_union.mp hmem with h | h
  · exact hb h
  · rcases (mem_foldr_contrib _ _ _ _).mp h with ⟨u, _, hcon⟩
    unfold sourceContribution at hcon
    rcases hsrc : sourceText env u with _ | t2
    · rw [hsrc] at hcon
      exact absurd hcon (Finset.not_mem_empty w)
    · rw [hsrc] at hcon
      exact (Finset.mem_sdiff.mp hcon).2 hw

/-- C2 amended, witness: with whitelist `{good.example}` and blacklist
`{bad.example}`, the whitelisted host is absent. -/
theorem whitelisted_absent_witness :
    ("good.example" ∈ (⟨{"good.example"}, {"bad.example"}, []⟩ : Config).host_whitelist
      ∧ "good.example" ∉ (⟨{"good.example"}, {"bad.example"}, []⟩ : Config).host_blacklist)
    ∧ "good.example" ∉ (runMain ⟨{"good.example"}, {"bad.example"}, []⟩ idleEnv).merged :=
  ⟨⟨by decide, by decide⟩,
   whitelisted_absent_unless_blacklisted _ idleEnv _ (by decide) (by decide)⟩

/-! ### Claim C5: cache fallback -/

/-- C5: a source whose fetch fails but whose cache read yields text
leaves the run marked failed (the flag is never cleared afterwards),
logs that cached data is used, and its parsed non-whitelisted hosts are
in the merged output. -/
theorem cache_fallback_degraded (cfg : Config) (env : Env) (url t : String)
    (hu : url ∈ cfg.blocklists) (hf : env.fetch url = none)
    (hc : env.cacheGet url = some (some t)) :
    (runMain cfg env).failed = true
    ∧ LogMsg.usingCached ∈ (runMain cfg env).log
    ∧ ∀ h ∈ okHostsSet (parse_blocklist t), h ∉ cfg.host_whitelist →
        h ∈ (runMain cfg env).merged := by
  refine ⟨?_, ?_, ?_⟩
  · unfold runMain
    rw [foldl_failed]
    have hsf : source_failed env url = true := by
      unfold source_failed
      rw [hf]
    have hany : cfg.blocklists.any (source_failed env) = true :=
      List.any_eq_true.mpr ⟨url, hu, hsf⟩
    simp [hany]
  · obtain ⟨l1, l2, hsplit⟩ := List.append_of_mem hu
    unfold runMain
    rw [hsplit, List.foldl_append, List.foldl_cons]
    exact foldl_log_mem _ _ _ _ _
      (process_source_usingCached _ _ _ _ t hf hc)
  · intro h hmem hwl
    unfold runMain
    rw [foldl_merged]
    apply Finset.mem_union_right
    rw [mem_foldr_contrib]
    refine ⟨url, hu, ?_⟩
    unfold sourceContribution sourceText
    rw [hf, hc]
    exact Finset.mem_sdiff.mpr ⟨hmem, hwl⟩

/-- The configuration of the C5 witness run. -/
def fallbackConfig : Config := ⟨∅, ∅, ["http://s.example/list"]⟩

/-- The environment of the C5 witness run: the fetch fails, the cache
holds `"evil.example"`. -/
def fallbackEnv : Env :=
  ⟨fun _ => none, fun _ => some (some "evil.example"), fun _ => true⟩

/-- C5 witness: on the concrete fallback run the flag is set, the cache
use is logged, and the cached host is merged. -/
theorem cache_fallback_degraded_witness :
    ("http://s.example/list" ∈ fallbackConfig.blocklists
      ∧ fallbackEnv.fetch "http://s.example/list" = none
      ∧ fallbackEnv.cacheGet "http://s.example/list" = some (some "evil.example"))
    ∧ ((runMain fallbackConfig fallbackEnv).failed = true
      ∧ LogMsg.usingCached ∈ (runMain fallbackConfig fallbackEnv).log
      ∧ ∀ h ∈ okHostsSet (parse_blocklist "evil.example"),
          h ∉ fallbackConfig.host_whitelist → h ∈ (runMain fallbackConfig fallbackEnv).merged) :=
  ⟨⟨by decide, rfl, rfl⟩,
   cache_fallback_degraded fallbackConfig fallbackEnv "http://s.example/list" "evil.example"
     (by decide) rfl rfl⟩

/-! ### Claim C6: the run outcome -/

lemma source_failed_eq (env : Env) (u : String) :
    source_failed env u = ((env.fetch u).isNone || hasParseErrors env u) := by
  unfold source_failed hasParseErrors sourceText
  cases hf : env.fetch u with
  | some t => simp
  | none => simp

lemma list_any_or {α : Type} (l : List α) (f g : α → Bool) :
    (l.any fun x => f x || g x) = (l.any f || l.any g) := by
  induction l with
  | nil => rfl
  | cons a t ih =>
    cases hfa : f a <;> cases hga : g a <;>
      simp [List.any_cons, ih, hfa, hga, Bool.or_assoc]

/-- C6: the run reports failure exactly when some fetch failed or some
contributed line failed to parse; the failed flag and the merged set do
not depend on whether cache writes succeed; and the output is the
rendering of the merged set, produced whatever the flag says, the exit
status being exactly the flag. -/
theorem run_outcome_flag (cfg : Config) (env : Env) (fmt : BlocklistOutput) :
    ((runMain cfg env).failed
        = (cfg.blocklists.any (fun u => (env.fetch u).isNone)
            || cfg.blocklists.any (hasParseErrors env)))
    ∧ (∀ ok2 : String → Bool,
        (runMain cfg { env with cacheInsertOk := ok2 }).failed = (runMain cfg env).failed
          ∧ (runMain cfg { env with cacheInsertOk := ok2 }).merged
              = (runMain cfg env).merged)
    ∧ (main_run cfg env fmt).output = fmt.write_to (runMain cfg env).merged
    ∧ (main_run cfg env fmt).exitFailure = (runMain cfg env).failed := by
  refine ⟨?_, ?_, rfl, rfl⟩
  · unfold runMain
    rw [foldl_failed]
    have h1 : source_failed env = fun u => ((env.fetch u).isNone || hasParseErrors env u) :=
      funext (source_failed_eq env)
    rw [h1, list_any_or]
    simp
  · intro ok2
    constructor
    · unfold runMain
      rw [foldl_failed, foldl_failed]
      have h2 : source_failed { env with cacheInsertOk := ok2 } = source_failed env := rfl
      rw [h2]
    · unfold runMain
      rw [foldl_merged, foldl_merged]
      have h2 : sourceContribution cfg.host_whitelist { env with cacheInsertOk := ok2 }
          = sourceContribution cfg.host_whitelist env := rfl
      rw [h2]

/-! ### Claim C10: characters of parseable IP addresses -/

lemma toDigit_isSome_16_of_10 (c : Char) (h : (toDigit 10 c).isSome = true) :
    (toDigit 16 c).isSome = true := by
  unfold toDigit at *
  cases hd : digitVal c with
  | none => rw [hd] at h; simp at h
  | some v =>
    rw [hd] at h
    by_cases hv : v < 10
    · simp [hv, show v < 16 by omega]
    · simp [hv] at h

lemma isIpChar_of_digit10 (c : Char) (h : (toDigit 10 c).isSome = true) :
    isIpChar c = true := by
  unfold isIpChar
  simp [toDigit_isSome_16_of_10 c h]

lemma isIpChar_of_digit16 (c : Char) (h : (toDigit 16 c).isSome = true) :
    isIpChar c = true := by
  unfold isIpChar
  simp [h]

lemma digitVal_ranges (c : Char) (v : Nat) (h : digitVal c = some v) (hv : v < 16) :
    (48 ≤ c.toNat ∧ c.toNat ≤ 57) ∨ (97 ≤ c.toNat ∧ c.toNat ≤ 102)
      ∨ (65 ≤ c.toNat ∧ c.toNat ≤ 70) := by
  unfold digitVal at h
  by_cases h1 : (48 ≤ c.toNat && c.toNat ≤ 57) = true
  · left
    simpa using h1
  · by_cases h2 : (97 ≤ c.toNat && c.toNat ≤ 122) = true
    · right; left
      simp only [h1, h2, Bool.false_eq_true, if_false, if_true, Option.some.injEq] at h
      have hb : 97 ≤ c.toNat ∧ c.toNat ≤ 122 := by simpa using h2
      omega
    · by_cases h3 : (65 ≤ c.toNat && c.toNat ≤ 90) = true
      · right; right
        simp only [h1, h2, h3, Bool.false_eq_true, if_false, if_true, Option.some.injEq] at h
        have hb : 65 ≤ c.toNat ∧ c.toNat ≤ 90 := by simpa using h3
        omega
      · simp [h1, h2, h3] at h

lemma good_of_toNat_ranges (c : Char)
    (h : (48 ≤ c.toNat ∧ c.toNat ≤ 57) ∨ (97 ≤ c.toNat ∧ c.toNat ≤ 102)
        ∨ (65 ≤ c.toNat ∧ c.toNat ≤ 70) ∨ c.toNat = 46 ∨ c.toNat = 58) :
    isWhitespaceChar c = false ∧ (c == '/') = false ∧ (c == '"') = false := by
  refine ⟨?_, ?_, ?_⟩
  · unfold isWhitespaceChar
    simp only [Bool.or_eq_false_iff, beq_eq_false_iff_ne, ne_eq, Bool.and_eq_false_iff,
      decide_eq_false_iff_not, not_le]
    omega
  · rw [beq_eq_false_iff_ne]
    intro hEq
    rw [hEq, show ('/' : Char).toNat = 47 from rfl] at h
    omega
  · rw [beq_eq_false_iff_ne]
    intro hEq
    rw [hEq, show ('"' : Char).toNat = 34 from rfl] at h
    omega

lemma isIpChar_good (c : Char) (h : isIpChar c = true) :
    isWhitespaceChar c = false ∧ (c == '/') = false ∧ (c == '"') = false := by
  apply good_of_toNat_ranges
  unfold isIpChar at h
  rcases (by simpa using h :
      ((toDigit 16 c).isSome = true ∨ c = '.') ∨ c = ':') with (hd | heq) | heq
  · unfold toDigit at hd
    cases hv : digitVal c with
    | none => rw [hv] at hd; simp at hd
    | some v =>
      rw [hv] at hd
      by_cases hlt : v < 16
      · rcases digitVal_ranges c v hv hlt with a | a | a
        · exact Or.inl a
        · exact Or.inr (Or.inl a)
        · exact Or.inr (Or.inr (Or.inl a))
      · simp [hlt] at hd
  · rw [heq]
    exact Or.inr (Or.inr (Or.inr (Or.inl rfl)))
  · rw [heq]
    exact Or.inr (Or.inr (Or.inr (Or.inr rfl)))

/-- The input suffix relation of the IP parser: `rest` is a suffix of
`cs` and every consumed character is an IP character. -/
def ConsumedIp (cs rest : List Char) : Prop :=
  ∃ pre, cs = pre ++ rest ∧ ∀ c ∈ pre, isIpChar c = true

lemma consumedIp_refl (cs : List Char) : ConsumedIp cs cs :=
  ⟨[], rfl, by simp⟩

lemma consumedIp_trans {cs mid rest : List Char}
    (h1 : ConsumedIp cs mid) (h2 : ConsumedIp mid rest) : ConsumedIp cs rest := by
  obtain ⟨p1, rfl, hp1⟩ := h1
  obtain ⟨p2, rfl, hp2⟩ := h2
  refine ⟨p1 ++ p2, by rw [List.append_assoc], ?_⟩
  intro c hc
  rcases List.mem_append.mp hc with h | h
  · exact hp1 c h
  · exact hp2 c h

lemma consumedIp_cons {cs rest : List Char} (c : Char) (hc : isIpChar c = true)
    (h : ConsumedIp cs rest) : ConsumedIp (c :: cs) rest := by
  obtain ⟨p, rfl, hp⟩ := h
  refine ⟨c :: p, rfl, ?_⟩
  intro d hd
  rcases List.mem_cons.mp hd with rfl | hd
  · exact hc
  · exact hp d hd

lemma readDigitsLoop_consumed (radix maxVal maxDigits : Nat) (hr : radix = 10 ∨ radix = 16) :
    ∀ (cs : List Char) (acc count v c2 : Nat) (rest : List Char),
    readDigitsLoop radix maxVal maxDigits cs acc count = some (v, c2, rest) →
    ConsumedIp cs rest := by
  intro cs
  induction cs with
  | nil =>
    intro acc count v c2 rest h
    simp only [readDigitsLoop, Option.some.injEq, Prod.mk.injEq] at h
    rw [← h.2.2]
    exact consumedIp_refl []
  | cons c cs ih =>
    intro acc count v c2 rest h
    unfold readDigitsLoop at h
    cases hd : toDigit radix c with
    | none =>
      rw [hd] at h
      simp only [Option.some.injEq, Prod.mk.injEq] at h
      rw [← h.2.2]
      exact consumedIp_refl _
    | some d =>
      simp only [hd] at h
      by_cases hb1 : maxVal < acc * radix + d
      · rw [if_pos hb1] at h
        exact absurd h (by simp)
      · rw [if_neg hb1] at h
        by_cases hb2 : maxDigits < count + 1
        · rw [if_pos hb2] at h
          exact absurd h (by simp)
        · rw [if_neg hb2] at h
          refine consumedIp_cons c ?_ (ih _ _ _ _ _ h)
          have hs : (toDigit radix c).isSome = true := by rw [hd]; rfl
          rcases hr with rfl | rfl
          · exact isIpChar_of_digit10 c hs
          · exact isIpChar_of_digit16 c hs

lemma read_number_consumed (radix maxVal maxDigits : Nat) (az : Bool)
    (hr : radix = 10 ∨ radix = 16) (cs : List Char) (v : Nat) (rest : List Char)
    (h : read_number radix maxVal maxDigits az cs = some (v, rest)) :
    ConsumedIp cs rest := by
  unfold read_number at h
  cases hl : readDigitsLoop radix maxVal maxDigits cs 0 0 with
  | none =>
    simp only [hl] at h
    exact absurd h (by simp)
  | some trip =>
    obtain ⟨v2, c2, rest2⟩ := trip
    simp only [hl] at h
    split at h
    · exact absurd h (by simp)
    · split at h
      · exact absurd h (by simp)
      · obtain ⟨rfl, rfl⟩ : v2 = v ∧ rest2 = rest := by
          simpa using h
        exact readDigitsLoop_consumed radix maxVal maxDigits hr cs 0 0 _ c2 _ hl

lemma readGivenChar_eq {ch : Char} {cs rest : List Char}
    (h : readGivenChar ch cs = some rest) : cs = ch :: rest := by
  cases cs with
  | nil => exact absurd h (by simp [readGivenChar])
  | cons d ds =>
    simp only [readGivenChar] at h
    by_cases hd : d = ch
    · subst hd
      rw [if_pos rfl] at h
      obtain rfl : ds = rest := by simpa using h
      rfl
    · rw [if_neg hd] at h
      exact absurd h (by simp)

lemma consumed_given (ch : Char) (hch : isIpChar ch = true) {cs rest : List Char}
    (h : readGivenChar ch cs = some rest) : ConsumedIp cs rest := by
  rw [readGivenChar_eq h]
  exact consumedIp_cons ch hch (consumedIp_refl rest)

lemma read_ipv4_consumed (cs : List Char) (q : Nat × Nat × Nat × Nat) (rest : List Char)
    (h : read_ipv4 cs = some (q, rest)) : ConsumedIp cs rest := by
  unfold read_ipv4 at h
  simp only [bind, Option.bind_eq_some, pure, Option.some.injEq] at h
  obtain ⟨⟨a, r1⟩, h1, r2, h2, ⟨b, r3⟩, h3, r4, h4, ⟨c, r5⟩, h5, r6, h6, ⟨d, r7⟩, h7, hfin⟩ := h
  obtain ⟨rfl, rfl⟩ : q = (a, b, c, d) ∧ rest = r7 := by
    constructor <;> [exact (congrArg Prod.fst hfin).symm; exact (congrArg Prod.snd hfin).symm]
  exact consumedIp_trans (read_number_consumed _ _ _ _ (Or.inl rfl) _ _ _ h1)
    (consumedIp_trans (consumed_given '.' (by decide) h2)
      (consumedIp_trans (read_number_consumed _ _ _ _ (Or.inl rfl) _ _ _ h3)
        (consumedIp_trans (consumed_given '.' (by decide) h4)
          (consumedIp_trans (read_number_consumed _ _ _ _ (Or.inl rfl) _ _ _ h5)
            (consumedIp_trans (consumed_given '.' (by decide) h6)
              (read_number_consumed _ _ _ _ (Or.inl rfl) _ _ _ h7))))))

lemma read_sep_group_consumed (i : Nat) (cs : List Char) (v : Nat) (rest : List Char)
    (h : read_sep_group i cs = some (v, rest)) : ConsumedIp cs rest := by
  unfold read_sep_group at h
  by_cases hi : i = 0
  · rw [if_pos hi] at h
    exact read_number_consumed _ _ _ _ (Or.inr rfl) _ _ _ h
  · rw [if_neg hi] at h
    simp only [bind, Option.bind_eq_some] at h
    obtain ⟨r1, h1, h2⟩ := h
    exact consumedIp_trans (consumed_given ':' (by decide) h1)
      (read_number_consumed _ _ _ _ (Or.inr rfl) _ _ _ h2)

lemma read_sep_ipv4_consumed (i : Nat) (cs : List Char) (q : Nat × Nat × Nat × Nat)
    (rest : List Char) (h : read_sep_ipv4 i cs = some (q, rest)) : ConsumedIp cs rest := by
  unfold read_sep_ipv4 at h
  by_cases hi : i = 0
  · rw [if_pos hi] at h
    exact read_ipv4_consumed _ _ _ h
  · rw [if_neg hi] at h
    simp only [bind, Option.bind_eq_some] at h
    obtain ⟨r1, h1, h2⟩ := h
    exact consumedIp_trans (consumed_given ':' (by decide) h1) (read_ipv4_consumed _ _ _ h2)

lemma readGroupsAux_consumed :
    ∀ (rem i : Nat) (cs : List Char) (acc g : List Nat) (b : Bool) (rest : List Char),
    readGroupsAux i rem cs acc = (g, b, rest) → ConsumedIp cs rest := by
  intro rem
  induction rem with
  | zero =>
    intro i cs acc g b rest h
    simp only [readGroupsAux, Prod.mk.injEq] at h
    rw [← h.2.2]
    exact consumedIp_refl _
  | succ rem ih =>
    intro i cs acc g b rest h
    unfold readGroupsAux at h
    cases h4 : (if 1 ≤ rem then read_sep_ipv4 i cs else none) with
    | some p =>
      obtain ⟨q, rest2⟩ := p
      rw [h4] at h
      simp only [Prod.mk.injEq] at h
      rw [← h.2.2]
      by_cases hrem : 1 ≤ rem
      · rw [if_pos hrem] at h4
        exact read_sep_ipv4_consumed _ _ _ _ h4
      · rw [if_neg hrem] at h4
        exact absurd h4 (by simp)
    | none =>
      rw [h4] at h
      cases h5 : read_sep_group i cs with
      | some p =>
        obtain ⟨gv, rest2⟩ := p
        rw [h5] at h
        exact consumedIp_trans (read_sep_group_consumed _ _ _ _ h5) (ih _ _ _ _ _ _ h)
      | none =>
        rw [h5] at h
        simp only [Prod.mk.injEq] at h
        rw [← h.2.2]
        exact consumedIp_refl _

lemma read_ipv6_consumed (cs : List Char) (g : List Nat) (rest : List Char)
    (h : read_ipv6 cs = some (g, rest)) : ConsumedIp cs rest := by
  unfold read_ipv6 at h
  rcases hg : readGroupsAux 0 8 cs [] with ⟨head, hb, rest1⟩
  simp only [hg] at h
  by_cases hlen : head.length = 8
  · rw [if_pos hlen] at h
    obtain ⟨rfl, rfl⟩ : head = g ∧ rest1 = rest := by simpa using h
    exact readGroupsAux_consumed _ _ _ _ _ _ _ hg
  · rw [if_neg hlen] at h
    by_cases hb4 : hb = true
    · rw [if_pos hb4] at h
      exact absurd h (by simp)
    · rw [if_neg hb4] at h
      split at h
      · rename_i rest2
        rcases htail : readGroupsAux 0 (8 - (head.length + 1)) rest2 [] with ⟨tail, tb, rest3⟩
        simp only [htail] at h
        obtain ⟨hgeq, rfl⟩ : _ ∧ rest3 = rest := by simpa using h
        refine consumedIp_trans (readGroupsAux_consumed _ _ _ _ _ _ _ hg) ?_
        refine consumedIp_cons ':' (by decide) (consumedIp_cons ':' (by decide) ?_)
        exact readGroupsAux_consumed _ _ _ _ _ _ _ htail
      · exact absurd h (by simp)

lemma parse_ip_chars (s : String) (a : IpAddr) (h0 : parse_ip_addr s = some a) :
    s.data ≠ [] ∧ ∀ c ∈ s.data, isIpChar c = true := by
  have hne : s.data ≠ [] := by
    intro hnil
    have hs : s = "" := string_data_inj hnil
    rw [hs, show parse_ip_addr "" = none from rfl] at h0
    exact Option.noConfusion h0
  have hc : ConsumedIp s.data [] := by
    have h := h0
    unfold parse_ip_addr at h
    cases h4 : read_ipv4 s.data with
    | some p =>
      obtain ⟨q, rest⟩ := p
      simp only [h4] at h
      by_cases hre : rest.isEmpty = true
      · have hrest : rest = [] := by simpa [List.isEmpty_iff] using hre
        rw [← hrest]
        exact read_ipv4_consumed _ _ _ h4
      · rw [if_neg hre] at h
        exact absurd h (by simp)
    | none =>
      simp only [h4] at h
      cases h6 : read_ipv6 s.data with
      | some p =>
        obtain ⟨g, rest⟩ := p
        simp only [h6] at h
        by_cases hre : rest.isEmpty = true
        · have hrest : rest = [] := by simpa [List.isEmpty_iff] using hre
          rw [← hrest]
          exact read_ipv6_consumed _ _ _ h6
        · rw [if_neg hre] at h
          exact absurd h (by simp)
      | none =>
        simp only [h6] at h
        exact absurd h (by simp)
  obtain ⟨pre, hpre, hchars⟩ := hc
  rw [List.append_nil] at hpre
  exact ⟨hne, fun c hcm => hchars c (hpre ▸ hcm)⟩

lemma ip_token_valid (tok : String) (a : IpAddr) (h : parse_ip_addr tok = some a) :
    Host.try_from tok = .ok ⟨tok⟩ := by
  obtain ⟨hne, hch⟩ := parse_ip_chars tok a h
  have hcond : (tok.data.isEmpty
      || tok.data.any (fun c => isWhitespaceChar c || c == '/' || c == '"')) = false := by
    rw [Bool.or_eq_false_iff]
    refine ⟨by simpa [List.isEmpty_iff] using hne, ?_⟩
    rw [List.any_eq_false]
    intro c hcm
    obtain ⟨w1, w2, w3⟩ := isIpChar_good c (hch c hcm)
    rw [Bool.not_eq_true]
    simp [w1, w2, w3]
  simp [Host.try_from, hcond]

/-- C10: a one-token line is always taken as a hostname — the token
goes straight to `Host` validation, so the loopback, unspecified and
suspicious-ip rules never fire — and when that token itself parses as
an IP address it is accepted as a `Host` verbatim; with the two
concrete one-token IP lines evaluated. -/
theorem single_token_is_host :
    (∀ l tok : String, tokens l = [tok] → parseLine l = some (Host.try_from tok))
    ∧ (∀ (l tok : String) (a : IpAddr), tokens l = [tok] → parse_ip_addr tok = some a →
        parseLine l = some (.ok ⟨tok⟩))
    ∧ parse_blocklist "127.0.0.1" = [.ok ⟨"127.0.0.1"⟩]
    ∧ parse_blocklist "8.8.8.8" = [.ok ⟨"8.8.8.8"⟩] := by
  refine ⟨?_, ?_, by decide, by decide⟩
  · intro l tok htok
    simp [parseLine, hostRegexCaptures, htok]
  · intro l tok a htok hpa
    have h1 : parseLine l = some (Host.try_from tok) := by
      simp [parseLine, hostRegexCaptures, htok]
    rw [h1, ip_token_valid tok a hpa]

/-- C10 witness: the line `"8.8.8.8"` alone is accepted as a host even
though the token parses as an IP address. -/
theorem single_token_is_host_witness :
    (tokens "8.8.8.8" = ["8.8.8.8"]
      ∧ parse_ip_addr "8.8.8.8" = some (.v4 ⟨8, 8, 8, 8⟩))
    ∧ parseLine "8.8.8.8" = some (.ok ⟨"8.8.8.8"⟩) :=
  ⟨⟨by decide, by decide⟩,
   single_token_is_host.2.1 "8.8.8.8" "8.8.8.8" (.v4 ⟨8, 8, 8, 8⟩) (by decide) (by decide)⟩

/-! ### Claim C7: the renderer -/

lemma foldl_append_data (F : String → String) :
    ∀ (l : List String) (acc : String),
    (l.foldl (fun a x => a ++ F x) acc).data
      = acc.data ++ (l.map (fun x => (F x).data)).flatten := by
  intro l
  induction l with
  | nil => intro acc; simp
  | cons x t ih =>
    intro acc
    rw [List.foldl_cons, ih, List.map_cons, List.flatten_cons, data_append,
      List.append_assoc]

lemma splitNl_append_line (b rest : List Char) (h : '\n' ∉ b) :
    splitNl (b ++ '\n' :: rest) = b :: splitNl rest := by
  induction b with
  | nil => simp [splitNl]
  | cons c cb ih =>
    have hc : ¬c = '\n' := fun hEq => h (hEq ▸ List.mem_cons_self c cb)
    have hcb : '\n' ∉ cb := fun hm => h (List.mem_cons_of_mem c hm)
    simp [splitNl, hc, ih hcb]

lemma splitNl_join_lines : ∀ (L : List (List Char)), (∀ x ∈ L, '\n' ∉ x) →
    splitNl ((L.map (fun x => x ++ ['\n'])).flatten) = L ++ [[]] := by
  intro L
  induction L with
  | nil => intro _; simp [splitNl]
  | cons x t ih =>
    intro hL
    rw [List.map_cons, List.flatten_cons, List.append_assoc, List.singleton_append,
      splitNl_append_line x _ (hL x (List.mem_cons_self x t)),
      ih (fun y hy => hL y (List.mem_cons_of_mem _ hy))]
    rfl

lemma assembleLines_append_empty : ∀ (L : List (List Char)),
    assembleLines (L ++ [[]]) = L.map (fun l => (⟨stripCRend l⟩ : String)) := by
  intro L
  induction L with
  | nil => simp [assembleLines]
  | cons p ps ih =>
    have hstep : assembleLines (p :: (ps ++ [[]]))
        = ⟨stripCRend p⟩ :: assembleLines (ps ++ [[]]) := by
      cases ps with
      | nil => rfl
      | cons q qs => rfl
    calc assembleLines ((p :: ps) ++ [[]])
        = ⟨stripCRend p⟩ :: assembleLines (ps ++ [[]]) := hstep
      _ = ⟨stripCRend p⟩ :: ps.map (fun l => (⟨stripCRend l⟩ : String)) := by rw [ih]
      _ = (p :: ps).map (fun l => (⟨stripCRend l⟩ : String)) := rfl

lemma stripCRend_of_no_cr (l : List Char) (h : l.getLast? ≠ some '\r') :
    stripCRend l = l := by
  unfold stripCRend
  rw [if_neg h]

lemma rustLines_of_joined (ls : List String) (s : String)
    (hnl : ∀ x ∈ ls, '\n' ∉ x.data)
    (hcr : ∀ x ∈ ls, x.data.getLast? ≠ some '\r')
    (hdata : s.data = (ls.map (fun x => x.data ++ ['\n'])).flatten) :
    rustLines s = ls := by
  unfold rustLines
  have hmm : ls.map (fun x => x.data ++ ['\n'])
      = (ls.map String.data).map (fun l => l ++ ['\n']) := by
    rw [List.map_map]
    rfl
  rw [hdata, hmm, splitNl_join_lines (ls.map String.data) ?_]
  · rw [assembleLines_append_empty, List.map_map]
    have hid : ∀ x ∈ ls, ((fun l => (⟨stripCRend l⟩ : String)) ∘ String.data) x = id x := by
      intro x hx
      simp only [Function.comp_apply, id_eq]
      rw [stripCRend_of_no_cr _ (hcr x hx), string_eta]
    rw [List.map_congr_left hid, List.map_id]
  · intro x hx
    rcases List.mem_map.mp hx with ⟨y, hy, rfl⟩
    exact hnl y hy

lemma validHost_parts (h : String) (hv : validHostString h = true) :
    h.data ≠ [] ∧ ∀ c ∈ h.data, isWhitespaceChar c = false := by
  unfold validHostString at hv
  rw [Bool.and_eq_true] at hv
  obtain ⟨h1, h2⟩ := hv
  constructor
  · simpa [List.isEmpty_iff] using h1
  · intro c hc
    have h3 := (by simpa using h2 :
      ∀ x ∈ h.data, (isWhitespaceChar x = false ∧ ¬x = '/') ∧ ¬x = '"') c hc
    exact h3.1.1

lemma validHost_no_nl (h : String) (hv : validHostString h = true) : '\n' ∉ h.data := by
  intro hm
  exact absurd ((validHost_parts h hv).2 '\n' hm) (by decide)

lemma validHost_last_ne_cr (h : String) (hv : validHostString h = true) :
    h.data.getLast? ≠ some '\r' := by
  intro hl
  have h1 : '\r' ∈ h.data.getLast? := by rw [hl]; rfl
  obtain ⟨hne2, heq⟩ := List.mem_getLast?_eq_getLast h1
  have hmem : '\r' ∈ h.data := heq ▸ List.getLast_mem hne2
  exact absurd ((validHost_parts h hv).2 '\r' hmem) (by decide)

lemma renderLine_no_nl (fmt : BlocklistOutput) (h : String)
    (hv : validHostString h = true) : '\n' ∉ (renderLineSpec fmt h).data := by
  cases fmt with
  | unbound =>
    intro hmem
    simp only [renderLineSpec, data_append, List.mem_append] at hmem
    rcases hmem with (hm | hm) | hm
    · exact absurd hm (by decide)
    · exact validHost_no_nl h hv hm
    · exact absurd hm (by decide)
  | dnsmasq =>
    intro hmem
    simp only [renderLineSpec, data_append, List.mem_append] at hmem
    rcases hmem with (hm | hm) | hm
    · exact absurd hm (by decide)
    · exact validHost_no_nl h hv hm
    · exact absurd hm (by decide)
  | hosts =>
    intro hmem
    simp only [renderLineSpec, data_append, List.mem_append] at hmem
    rcases hmem with hm | hm
    · exact absurd hm (by decide)
    · exact validHost_no_nl h hv hm

lemma renderLine_last_ne_cr (fmt : BlocklistOutput) (h : String)
    (hv : validHostString h = true) :
    (renderLineSpec fmt h).data.getLast? ≠ some '\r' := by
  cases fmt with
  | unbound =>
    simp only [renderLineSpec, data_append]
    rw [List.getLast?_append_of_ne_nil _ (by decide)]
    decide
  | dnsmasq =>
    simp only [renderLineSpec, data_append]
    rw [List.getLast?_append_of_ne_nil _ (by decide)]
    decide
  | hosts =>
    simp only [renderLineSpec, data_append]
    rw [List.getLast?_append_of_ne_nil _ (validHost_parts h hv).1]
    exact validHost_last_ne_cr h hv

lemma write_to_data (fmt : BlocklistOutput) (m : Finset String) :
    (fmt.write_to m).data
      = ((m.sort (· ≤ ·)).map (fun x => (renderLineSpec fmt x).data ++ ['\n'])).flatten := by
  cases fmt with
  | unbound =>
    have hfun : (fun (acc host : String) =>
          acc ++ "local-zone: \"" ++ host ++ "\" always_nxdomain\n")
        = fun acc host => acc ++ ("local-zone: \"" ++ host ++ "\" always_nxdomain\n") := by
      funext acc host
      apply string_data_inj
      simp [data_append, List.append_assoc]
    show ((m.sort (· ≤ ·)).foldl (fun acc host =>
        acc ++ "local-zone: \"" ++ host ++ "\" always_nxdomain\n") "").data = _
    rw [hfun, foldl_append_data]
    have hline : ∀ x : String, (("local-zone: \"" ++ x ++ "\" always_nxdomain\n") : String).data
        = (renderLineSpec BlocklistOutput.unbound x).data ++ ['\n'] := by
      intro x
      simp only [renderLineSpec, data_append,
        show ("\" always_nxdomain\n" : String).data
          = ("\" always_nxdomain" : String).data ++ ['\n'] from rfl,
        List.append_assoc]
      rfl
    simp only [hline]
    rfl
  | dnsmasq =>
    have hfun : (fun (acc host : String) => acc ++ "address=/" ++ host ++ "/\n")
        = fun acc host => acc ++ ("address=/" ++ host ++ "/\n") := by
      funext acc host
      apply string_data_inj
      simp [data_append, List.append_assoc]
    show ((m.sort (· ≤ ·)).foldl (fun acc host => acc ++ "address=/" ++ host ++ "/\n") "").data
        = _
    rw [hfun, foldl_append_data]
    have hline : ∀ x : String, (("address=/" ++ x ++ "/\n") : String).data
        = (renderLineSpec BlocklistOutput.dnsmasq x).data ++ ['\n'] := by
      intro x
      simp only [renderLineSpec, data_append,
        show ("/\n" : String).data = ("/" : String).data ++ ['\n'] from rfl,
        List.append_assoc]
      rfl
    simp only [hline]
    rfl
  | hosts =>
    have hfun : (fun (acc host : String) => acc ++ "0.0.0.0 " ++ host ++ "\n")
        = fun acc host => acc ++ ("0.0.0.0 " ++ host ++ "\n") := by
      funext acc host
      apply string_data_inj
      simp [data_append, List.append_assoc]
    show ((m.sort (· ≤ ·)).foldl (fun acc host => acc ++ "0.0.0.0 " ++ host ++ "\n") "").data
        = _
    rw [hfun, foldl_append_data]
    have hline : ∀ x : String, (("0.0.0.0 " ++ x ++ "\n") : String).data
        = (renderLineSpec BlocklistOutput.hosts x).data ++ ['\n'] := by
      intro x
      simp only [renderLineSpec, data_append,
        show ("\n" : String).data = ['\n'] from rfl,
        List.append_assoc]
    simp only [hline]
    rfl

/-- C7: the rendered output, split back into lines, is exactly one line
per host in the template of the selected format, the hosts iterated in
strictly ascending lexicographic order of the underlying string; the
iterated list enumerates the merged set without repetition. -/
theorem render_sorted_lines (fmt : BlocklistOutput) (m : Finset String)
    (hv : ∀ h ∈ m, validHostString h = true) :
    rustLines (fmt.write_to m) = (m.sort (· ≤ ·)).map (renderLineSpec fmt)
    ∧ List.Sorted (· < ·) (m.sort (· ≤ ·))
    ∧ (m.sort (· ≤ ·)).toFinset = m
    ∧ (m.sort (· ≤ ·)).length = m.card := by
  have hsmem : ∀ x ∈ m.sort (· ≤ ·), validHostString x = true := by
    intro x hx
    exact hv x (by rwa [Finset.mem_sort] at hx)
  refine ⟨?_, Finset.sort_sorted_lt m, Finset.sort_toFinset _ m, Finset.length_sort _⟩
  apply rustLines_of_joined
  · intro x hx
    rcases List.mem_map.mp hx with ⟨y, hy, rfl⟩
    exact renderLine_no_nl fmt y (hsmem y hy)
  · intro x hx
    rcases List.mem_map.mp hx with ⟨y, hy, rfl⟩
    exact renderLine_last_ne_cr fmt y (hsmem y hy)
  · rw [write_to_data, List.map_map]
    rfl

/-- The merged set of the C7 witness. -/
def demoSet : Finset String := {"b.example", "a.example"}

/-- C7 witness: the hosts-format rendering of a concrete two-element
set. -/
theorem render_sorted_lines_witness :
    (∀ h ∈ demoSet, validHostString h = true)
    ∧ (rustLines (BlocklistOutput.hosts.write_to demoSet)
        = (demoSet.sort (· ≤ ·)).map (renderLineSpec .hosts)
      ∧ List.Sorted (· < ·) (demoSet.sort (· ≤ ·))
      ∧ (demoSet.sort (· ≤ ·)).toFinset = demoSet
      ∧ (demoSet.sort (· ≤ ·)).length = demoSet.card) :=
  ⟨by decide, render_sorted_lines .hosts demoSet (by decide)⟩

end Blocklist
